import Mathlib

/-!
Verification of the base-fhirpy client library (`src/base_fhirpy/lib.py`).

The development shallowly embeds the parts of the library the claims are
about:

* a JSON-like value type modelling the parsed documents the client
  exchanges with the server;
* the `Resource` object model (`AbstractResource` / `Resource` in the
  source): construction, the schema gate, `__setitem__`, the derived
  `reference`, `__eq__`, `_get_path`, `save`, `delete`;
* the per-client resource cache (`Client._add_resource_to_cache`,
  `_remove_resource_from_cache`, `_get_resource_from_cache`), modelled as a
  total function from `(resourceType, id)` keys to optional resources —
  a faithful model of a Python dict-of-dicts over hashable keys with
  structural equality;
* the `SearchSet` query builder at two levels: a value-level model (used
  by the fetch/save/delete claims, where Python object identity is
  irrelevant) and a heap-instrumented model (used by the immutability
  claims, where `copy.deepcopy` and in-place `list.extend` are the whole
  point).

The HTTP transport is an external collaborator; it is modelled as a
function from the request the code builds to the parsed response (or a
typed failure), exactly the interface `Client._do_request` exposes to the
rest of the library.  Error messages carried by Python exceptions are
elided: errors are distinguished by their class only.
-/

/-- A parsed JSON document, as produced by `json.loads` in
`Client._do_request`.  Numbers are modelled as integers (no claim involves
non-integral numbers). -/
inductive JSON where
  | null
  | str (s : String)
  | num (n : Int)
  | arr (xs : List JSON)
  | obj (fields : List (String × JSON))

mutual

/-- Structural (Python `==`) equality of parsed-JSON values, decidable by
hand because the nested inductive defeats the derive handler. -/
def JSON.decEq : (a b : JSON) → Decidable (a = b)
  | .null, .null => .isTrue rfl
  | .null, .str _ => .isFalse (fun h => JSON.noConfusion h)
  | .null, .num _ => .isFalse (fun h => JSON.noConfusion h)
  | .null, .arr _ => .isFalse (fun h => JSON.noConfusion h)
  | .null, .obj _ => .isFalse (fun h => JSON.noConfusion h)
  | .str _, .null => .isFalse (fun h => JSON.noConfusion h)
  | .str a, .str b =>
      match String.decEq a b with
      | .isTrue h => .isTrue (by rw [h])
      | .isFalse h => .isFalse (fun he => h (JSON.str.inj he))
  | .str _, .num _ => .isFalse (fun h => JSON.noConfusion h)
  | .str _, .arr _ => .isFalse (fun h => JSON.noConfusion h)
  | .str _, .obj _ => .isFalse (fun h => JSON.noConfusion h)
  | .num _, .null => .isFalse (fun h => JSON.noConfusion h)
  | .num _, .str _ => .isFalse (fun h => JSON.noConfusion h)
  | .num a, .num b =>
      match Int.decEq a b with
      | .isTrue h => .isTrue (by rw [h])
      | .isFalse h => .isFalse (fun he => h (JSON.num.inj he))
  | .num _, .arr _ => .isFalse (fun h => JSON.noConfusion h)
  | .num _, .obj _ => .isFalse (fun h => JSON.noConfusion h)
  | .arr _, .null => .isFalse (fun h => JSON.noConfusion h)
  | .arr _, .str _ => .isFalse (fun h => JSON.noConfusion h)
  | .arr _, .num _ => .isFalse (fun h => JSON.noConfusion h)
  | .arr xs, .arr ys =>
      match JSON.decEqList xs ys with
      | .isTrue h => .isTrue (by rw [h])
      | .isFalse h => .isFalse (fun he => h (JSON.arr.inj he))
  | .arr _, .obj _ => .isFalse (fun h => JSON.noConfusion h)
  | .obj _, .null => .isFalse (fun h => JSON.noConfusion h)
  | .obj _, .str _ => .isFalse (fun h => JSON.noConfusion h)
  | .obj _, .num _ => .isFalse (fun h => JSON.noConfusion h)
  | .obj _, .arr _ => .isFalse (fun h => JSON.noConfusion h)
  | .obj fs, .obj gs =>
      match JSON.decEqFields fs gs with
      | .isTrue h => .isTrue (by rw [h])
      | .isFalse h => .isFalse (fun he => h (JSON.obj.inj he))

/-- Decidable equality of JSON arrays. -/
def JSON.decEqList : (xs ys : List JSON) → Decidable (xs = ys)
  | [], [] => .isTrue rfl
  | [], _ :: _ => .isFalse (fun h => List.noConfusion h)
  | _ :: _, [] => .isFalse (fun h => List.noConfusion h)
  | x :: xs, y :: ys =>
      match JSON.decEq x y with
      | .isFalse h => .isFalse (fun he => h (List.head_eq_of_cons_eq he))
      | .isTrue h =>
          match JSON.decEqList xs ys with
          | .isTrue h' => .isTrue (by rw [h, h'])
          | .isFalse h' => .isFalse (fun he => h' (List.tail_eq_of_cons_eq he))

/-- Decidable equality of JSON object field lists. -/
def JSON.decEqFields : (fs gs : List (String × JSON)) → Decidable (fs = gs)
  | [], [] => .isTrue rfl
  | [], _ :: _ => .isFalse (fun h => List.noConfusion h)
  | _ :: _, [] => .isFalse (fun h => List.noConfusion h)
  | ⟨k, v⟩ :: fs, ⟨k', v'⟩ :: gs =>
      match String.decEq k k' with
      | .isFalse h =>
          .isFalse (fun he => h (congrArg Prod.fst (List.head_eq_of_cons_eq he)))
      | .isTrue h =>
          match JSON.decEq v v' with
          | .isFalse h' =>
              .isFalse (fun he => h' (congrArg Prod.snd (List.head_eq_of_cons_eq he)))
          | .isTrue h' =>
              match JSON.decEqFields fs gs with
              | .isTrue h'' => .isTrue (by rw [h, h', h''])
              | .isFalse h'' => .isFalse (fun he => h'' (List.tail_eq_of_cons_eq he))

end

instance : DecidableEq JSON := JSON.decEq

/-- Python truthiness (`if self.id:` etc.): `None`, `''`, `0`, `[]` and
`{}` are falsy, everything else truthy. -/
def JSON.truthy : JSON → Bool
  | .null => false
  | .str s => s ≠ ""
  | .num n => n ≠ 0
  | .arr xs => !xs.isEmpty
  | .obj fs => !fs.isEmpty

/-- Python `'{0}'.format(value)` on a parsed-JSON value.  Only the string
and number cases are exercised by the library on realistic data; container
reprs are abbreviated (no claim depends on them). -/
def JSON.fmt : JSON → String
  | .null => "None"
  | .str s => s
  | .num n => toString n
  | .arr _ => "<list>"
  | .obj _ => "<dict>"

/-- First-match lookup in an ordered field list — Python `key in d` /
`d[key]` on a dict (dicts never hold duplicate keys; the assoc-list model
preserves insertion order like Python dicts do). -/
def lookupField : List (String × JSON) → String → Option JSON
  | [], _ => none
  | (k, v) :: rest, key => if k = key then some v else lookupField rest key

/-- Python `d[key] = value` on a dict: update in place when the key is
present, append otherwise. -/
def setField : List (String × JSON) → String → JSON → List (String × JSON)
  | [], key, value => [(key, value)]
  | (k, v) :: rest, key, value =>
      if k = key then (k, value) :: rest else (k, v) :: setField rest key value

theorem lookupField_setField_self (fs : List (String × JSON)) (k : String) (v : JSON) :
    lookupField (setField fs k v) k = some v := by
  induction fs with
  | nil => simp [setField, lookupField]
  | cons hd tl ih =>
      obtain ⟨k', v'⟩ := hd
      by_cases h : k' = k <;> simp [setField, lookupField, h, ih]

theorem lookupField_setField_ne (fs : List (String × JSON)) (k k' : String) (v : JSON)
    (h : k' ≠ k) : lookupField (setField fs k v) k' = lookupField fs k' := by
  induction fs with
  | nil => simp [setField, lookupField, Ne.symm h]
  | cons hd tl ih =>
      obtain ⟨k₀, v₀⟩ := hd
      by_cases h₀ : k₀ = k
      · subst h₀
        simp [setField, lookupField, Ne.symm h]
      · by_cases h₁ : k₀ = k' <;> simp [setField, lookupField, h, h₀, h₁, ih]

/-- Python `d.get(key, default)` on a parsed-JSON object’s field list. -/
def jgetD (fs : List (String × JSON)) (key : String) (default : JSON) : JSON :=
  (lookupField fs key).getD default

/-- The error classes the library can raise.  Messages are elided; each
constructor corresponds to one Python exception class
(`exceptions.py` plus the builtin `KeyError`/`TypeError`/`AttributeError`). -/
inductive Err where
  | keyError
  | typeError
  | attributeError
  | invalidResponse
  | resourceNotFound
  | operationOutcome
  | connection
deriving DecidableEq

/-- The client configuration the embedded operations depend on:
`Client.without_cache` (negation of the `with_cache` constructor argument)
and the optional schema (mapping resource-type name to its allowed
top-level field names). -/
structure ClientCfg where
  withoutCache : Bool
  schema : Option (List (String × List String))

/-- A materialized resource: the `resource_type` constructor argument
(stored as the instance attribute in `Resource.__init__`) together with
the dict contents.  Field values are plain JSON documents: the
construction-time reference conversion is modelled as the identity (see
`convert_values`), so nested `Resource`/`Reference` objects do not occur. -/
structure Resource where
  resource_type : JSON
  fields : List (String × JSON)
deriving DecidableEq

/-- `AbstractResource.get(key, None)` — dict `get` with default `None`
(the schema gate on `get` is a no-op for the keys the embedded operations
read; see `checkKey`). -/
def Resource.getF (r : Resource) (key : String) : JSON :=
  jgetD r.fields key .null

/-- The `Resource.id` property: `self.get('id', None)`. -/
def Resource.rid (r : Resource) : JSON :=
  r.getF "id"

/-- The per-client resource cache
(`Client.resources_cache : defaultdict(dict)`), modelled as a total
function from the `(resource_type, id)` key pair to an optional resource.
Keys are compared structurally, as Python dicts compare hashable keys. -/
def Cache : Type := JSON → JSON → Option Resource

/-- `Client._add_resource_to_cache`: a no-op when caching is disabled,
otherwise `resources_cache[resource.resource_type][resource.id] = resource`. -/
def addToCache (cfg : ClientCfg) (c : Cache) (r : Resource) : Cache :=
  if cfg.withoutCache then c
  else fun rt id =>
    if rt = r.resource_type ∧ id = r.rid then some r else c rt id

/-- `Client._remove_resource_from_cache`: a no-op when caching is
disabled; otherwise `del resources_cache[rt][id]`, which raises `KeyError`
when the id is not present under that type. -/
def removeFromCache (cfg : ClientCfg) (c : Cache) (r : Resource) : Except Err Cache :=
  if cfg.withoutCache then .ok c
  else
    match c r.resource_type r.rid with
    | none => .error .keyError
    | some _ =>
        .ok (fun rt id =>
          if rt = r.resource_type ∧ id = r.rid then none else c rt id)

/-- `Client._get_resource_from_cache`: `None` when caching is disabled,
otherwise `resources_cache[resource_type].get(id, None)`. -/
def getFromCache (cfg : ClientCfg) (c : Cache) (rt id : JSON) : Option Resource :=
  if cfg.withoutCache then none else c rt id

/-- `schema.get(self.resource_type, [])` — the schema dict is keyed by
resource-type names (strings), so a non-string `resource_type` finds
nothing. -/
def schemaLookup (sch : List (String × List String)) (rt : JSON) : List String :=
  match rt with
  | .str s =>
      match sch.lookup s with
      | some ks => ks
      | none => []
  | _ => []

/-- `Resource.get_root_keys` for a client that carries a schema:
the schema-declared fields unioned with the always-present identity
fields. -/
def getRootKeys (sch : List (String × List String)) (rt : JSON) : List String :=
  schemaLookup sch rt ++ ["resourceType", "id", "meta", "extension"]

/-- `AbstractResource._raise_error_if_invalid_key`: a no-op when the
client has no schema, otherwise a `KeyError` unless the key is among the
root keys. -/
def checkKey (cfg : ClientCfg) (rt : JSON) (k : String) : Except Err Unit :=
  match cfg.schema with
  | none => .ok ()
  | some sch => if k ∈ getRootKeys sch rt then .ok () else .error .keyError

/-- `AbstractResource._raise_error_if_invalid_keys` over a key list. -/
def checkKeys (cfg : ClientCfg) (rt : JSON) : List String → Except Err Unit
  | [] => .ok ()
  | k :: rest =>
      match checkKey cfg rt k with
      | .error e => .error e
      | .ok _ => checkKeys cfg rt rest

/-- Modelled from the spec: `convert_values` lives in `utils` (not under
`src/`) and is invoked in `Resource.__init__` with the protocol-specific
(abstract) `is_reference` predicate.  Per the spec it recursively replaces
reference-shaped sub-documents by `Reference` objects and leaves
everything else — in particular the top-level key set and scalar values
such as `resourceType` and `id`, the only parts the claims depend on —
unchanged.  It is therefore modelled as the identity. -/
def convert_values (fields : List (String × JSON)) : List (String × JSON) :=
  fields

/-- `Client.resource` followed by `Resource.__init__` and
`AbstractResource.__init__`: reject a missing (`None`) resource type,
force the `resourceType` entry, run the construction-time conversion, and
run the schema gate over every key. -/
def mkResource (cfg : ClientCfg) (resource_type : JSON)
    (kwargs : List (String × JSON)) : Except Err Resource :=
  if resource_type = .null then .error .typeError
  else
    match checkKeys cfg resource_type
        ((convert_values (setField kwargs "resourceType" resource_type)).map Prod.fst) with
    | .error e => .error e
    | .ok _ => .ok ⟨resource_type, convert_values (setField kwargs "resourceType" resource_type)⟩

/-- `Resource.__setitem__`: the (inverted, see `c1_resourceType_mutation`)
`resourceType` guard — a `KeyError` only when `key == 'resourceType'` and
the `resourceType` key is *absent* — followed by
`AbstractResource.__setitem__` (schema gate, then the dict store). -/
def Resource.setItem (cfg : ClientCfg) (r : Resource) (key : String) (value : JSON) :
    Except Err Resource :=
  if key = "resourceType" ∧ lookupField r.fields "resourceType" = none then
    .error .keyError
  else
    match checkKey cfg r.resource_type key with
    | .error e => .error e
    | .ok _ => .ok ⟨r.resource_type, setField r.fields key value⟩

/-- The `Resource.reference` property: `'{0}/{1}'.format(resource_type, id)`
when the id is truthy, `None` (modelled as `none`) otherwise. -/
def Resource.referenceV (r : Resource) : Option String :=
  if r.rid.truthy then some (r.resource_type.fmt ++ "/" ++ r.rid.fmt) else none

/-- `AbstractResource.__eq__` between two resources: the `isinstance`
test holds, so equality is `self.reference == other.reference`. -/
def resourceEq (r₁ r₂ : Resource) : Bool :=
  r₁.referenceV = r₂.referenceV

/-- `Resource._get_path`: `'{rt}/{id}'` when the id is truthy, the empty
path for a `Bundle` without id, the bare resource type otherwise. -/
def Resource.get_path (r : Resource) : String :=
  if r.rid.truthy then r.resource_type.fmt ++ "/" ++ r.rid.fmt
  else if r.resource_type = .str "Bundle" then ""
  else r.resource_type.fmt

/-- `Resource.save`: one `_do_request` with verb chosen by id-truthiness
and path `_get_path()`; on success `self['meta']`/`self['id']` are
overwritten from the response body (via `Resource.__setitem__`) and the
resource is registered in the cache.  The transport is the function from
`(method, path)` to the parsed response body; a non-dict response makes
`data.get` raise `AttributeError`. -/
def Resource.save (cfg : ClientCfg) (cache : Cache) (r : Resource)
    (t : String → String → Except Err JSON) : Except Err (Resource × Cache) :=
  match t (if r.rid.truthy then "put" else "post") r.get_path with
  | .error e => .error e
  | .ok data =>
      match data with
      | .obj fs =>
          match r.setItem cfg "meta" (jgetD fs "meta" (.obj [])) with
          | .error e => .error e
          | .ok r₁ =>
              match r₁.setItem cfg "id" (jgetD fs "id" .null) with
              | .error e => .error e
              | .ok r₂ => .ok (r₂, addToCache cfg cache r₂)
      | _ => .error .attributeError

/-- `Resource.delete`: evict from the cache first, then issue the delete
request; both the response and any failure of either step are returned
together with the cache state at exit. -/
def Resource.delete (cfg : ClientCfg) (cache : Cache) (r : Resource)
    (t : String → Except Err JSON) : (Except Err JSON) × Cache :=
  match removeFromCache cfg cache r with
  | .error e => (.error e, cache)
  | .ok cache' =>
      match t r.get_path with
      | .error e => (.error e, cache')
      | .ok d => (.ok d, cache')

/-- A search-parameter value: the library stores strings and integers in
the multi-valued parameter mapping. -/
inductive PVal where
  | s (v : String)
  | n (v : Int)
deriving DecidableEq

/-- An incoming keyword-argument value in `SearchSet.clone`: either a
scalar or already a list (`if not isinstance(value, list): value = [value]`).
-/
inductive CloneVal where
  | scalar (v : PVal)
  | list (vs : List PVal)
deriving DecidableEq

/-- The scalar-to-list coercion performed at the top of the `clone` loop. -/
def coerceVal : CloneVal → List PVal
  | .scalar v => [v]
  | .list vs => vs

/-- The value-level `SearchSet`: the resource-type tag and the
(dereferenced) multi-valued parameter mapping.  This model is used by the
fetch-path claims; the heap-instrumented model below is used by the
immutability claims. -/
structure SearchSet where
  resource_type : String
  params : List (String × List PVal)
deriving DecidableEq

/-- First-match lookup in the parameter mapping. -/
def lookupParams : List (String × List PVal) → String → Option (List PVal)
  | [], _ => none
  | (k, v) :: rest, key => if k = key then some v else lookupParams rest key

/-- Dict store on the parameter mapping: update in place when present,
append otherwise. -/
def setParam : List (String × List PVal) → String → List PVal → List (String × List PVal)
  | [], key, value => [(key, value)]
  | (k, v) :: rest, key, value =>
      if k = key then (k, value) :: rest else (k, v) :: setParam rest key value

/-- The loop body of `SearchSet.clone` at the value level: coerce each
incoming value to a list, then either replace (`override`) or extend the
key's (defaultdict) value list. -/
def cloneParams : List (String × CloneVal) → Bool → List (String × List PVal) →
    List (String × List PVal)
  | [], _, ps => ps
  | (k, v) :: rest, override, ps =>
      let vs := coerceVal v
      if override then cloneParams rest override (setParam ps k vs)
      else cloneParams rest override (setParam ps k ((lookupParams ps k).getD [] ++ vs))

/-- Value-level `SearchSet.clone` (the deep copy is invisible at this
level; the heap-instrumented `SSH.clone` below models it explicitly). -/
def SearchSet.cloneV (s : SearchSet) (override : Bool)
    (kwargs : List (String × CloneVal)) : SearchSet :=
  ⟨s.resource_type, cloneParams kwargs override s.params⟩

/-- Value-level `SearchSet.page`: `clone(page=page, override=True)`. -/
def SearchSet.pageV (s : SearchSet) (page : Int) : SearchSet :=
  s.cloneV true [("page", .scalar (.n page))]

/-- The transport seen by `SearchSet.fetch`:
`Client._fetch_resource(path, params)` returning the parsed response body
or a typed failure. -/
def Transport : Type := String → List (String × List PVal) → Except Err JSON

/-- The list comprehension
`[res['resource'] for res in bundle_data.get('entry', [])]`: a missing
`entry` yields `[]`; a non-list `entry` or a non-dict element raises
`TypeError`; an element without a `resource` key raises `KeyError`. -/
def extractEntries (bundle : List (String × JSON)) : Except Err (List JSON) :=
  match lookupField bundle "entry" with
  | none => .ok []
  | some (.arr xs) =>
      xs.mapM fun x =>
        match x with
        | .obj fs =>
            match lookupField fs "resource" with
            | some v => .ok v
            | none => .error .keyError
        | _ => .error .typeError
  | some _ => .error .typeError

/-- `SearchSet._perform_resource`: read `resourceType` from the entry
data (a non-dict raises when `.get` is attempted), materialize through
`Client.resource`, and register in the cache unless `skip_caching`. -/
def performResource (cfg : ClientCfg) (cache : Cache) (data : JSON) (skip : Bool) :
    Except Err (Resource × Cache) :=
  match data with
  | .obj fs =>
      match mkResource cfg (jgetD fs "resourceType" .null) fs with
      | .error e => .error e
      | .ok r => .ok (r, if skip then cache else addToCache cfg cache r)
  | _ => .error .attributeError

/-- The materialization loop of `SearchSet.fetch`: each entry is
materialized (and cached) in order, and appended to the result only when
its type equals the SearchSet's declared type.  The cache at exit is
returned even when an entry fails, matching the partial mutation a raised
exception leaves behind. -/
def fetchLoop (cfg : ClientCfg) (skip : Bool) (declared : String) :
    List JSON → Cache → List Resource → (Except Err (List Resource)) × Cache
  | [], cache, acc => (.ok acc, cache)
  | d :: rest, cache, acc =>
      match performResource cfg cache d skip with
      | .error e => (.error e, cache)
      | .ok (r, cache') =>
          fetchLoop cfg skip declared rest cache'
            (if r.resource_type = .str declared then acc ++ [r] else acc)

/-- `SearchSet.fetch`: request the search path with the current params,
demand a `Bundle` response, extract the entries, then materialize,
cache and filter.  Returns the result (or the raised failure) together
with the cache state at exit. -/
def SearchSet.fetch (cfg : ClientCfg) (s : SearchSet) (t : Transport) (skip : Bool)
    (cache : Cache) : (Except Err (List Resource)) × Cache :=
  match t s.resource_type s.params with
  | .error e => (.error e, cache)
  | .ok bundle =>
      match bundle with
      | .obj fs =>
          if jgetD fs "resourceType" .null ≠ .str "Bundle" then
            (.error .invalidResponse, cache)
          else
            match extractEntries fs with
            | .error e => (.error e, cache)
            | .ok datas => fetchLoop cfg skip s.resource_type datas cache []
      | _ => (.error .attributeError, cache)

/-- The `while True` loop of `SearchSet.fetch_all`, with explicit fuel
standing in for the unbounded iteration (`none` means the loop did not
finish within the given fuel): fetch `page(page)`, stop on the first
empty page, otherwise extend the accumulator and continue with the next
page number. -/
def fetchAllAux (cfg : ClientCfg) (t : Transport) (skip : Bool) (s : SearchSet) :
    Nat → Int → Cache → List Resource → Option ((Except Err (List Resource)) × Cache)
  | 0, _, _, _ => none
  | fuel + 1, page, cache, acc =>
      match (s.pageV page).fetch cfg t skip cache with
      | (.error e, cache') => some (.error e, cache')
      | (.ok rs, cache') =>
          if rs = [] then some (.ok acc, cache')
          else fetchAllAux cfg t skip s fuel (page + 1) cache' (acc ++ rs)

/-- `SearchSet.fetch_all`: start at page 1 with an empty accumulator. -/
def SearchSet.fetch_all (cfg : ClientCfg) (s : SearchSet) (t : Transport) (skip : Bool)
    (cache : Cache) (fuel : Nat) : Option ((Except Err (List Resource)) × Cache) :=
  fetchAllAux cfg t skip s fuel 1 cache []

/-- A heap of Python list objects, for the claims where `copy.deepcopy`
and in-place `list.extend` matter: references are natural numbers,
`next` is the allocation counter, and every allocated reference is below
`next`. -/
structure Heap where
  mem : Nat → List PVal
  next : Nat

/-- Allocate a fresh list object. -/
def Heap.alloc (h : Heap) (xs : List PVal) : Nat × Heap :=
  (h.next, ⟨fun r => if r = h.next then xs else h.mem r, h.next + 1⟩)

/-- Overwrite the list object at `r` (models `list.extend` targets). -/
def Heap.write (h : Heap) (r : Nat) (xs : List PVal) : Heap :=
  ⟨fun r' => if r' = r then xs else h.mem r', h.next⟩

/-- The heap-instrumented `SearchSet`: the parameter mapping holds
references to list objects instead of the lists themselves. -/
structure SSH where
  resource_type : String
  params : List (String × Nat)

/-- First-match key lookup in the reference-valued parameter mapping. -/
def lookupKey : List (String × Nat) → String → Option Nat
  | [], _ => none
  | (k, r) :: rest, key => if k = key then some r else lookupKey rest key

/-- Dict store in the reference-valued parameter mapping. -/
def setKey : List (String × Nat) → String → Nat → List (String × Nat)
  | [], key, r => [(key, r)]
  | (k, r₀) :: rest, key, r =>
      if k = key then (k, r) :: rest else (k, r₀) :: setKey rest key r

/-- `copy.deepcopy(self.params)`: every key's list object is copied into
a freshly allocated one.  (The deepcopy memo — which preserves aliasing
between keys that share one list object — is not modelled; no claim
depends on cross-key aliasing inside the copy.) -/
def deepcopyParams : List (String × Nat) → Heap → List (String × Nat) × Heap
  | [], h => ([], h)
  | (k, r) :: rest, h =>
      let a := h.alloc (h.mem r)
      let rest' := deepcopyParams rest a.2
      ((k, a.1) :: rest'.1, rest'.2)

/-- The `for key, value in kwargs.items()` loop of `SearchSet.clone`:
coerce scalars, then either rebind the key to the incoming list object
(`override`) or `extend` the key's (defaultdict) list object in place. -/
def cloneLoop : List (String × CloneVal) → Bool → List (String × Nat) → Heap →
    List (String × Nat) × Heap
  | [], _, ps, h => (ps, h)
  | (k, v) :: rest, override, ps, h =>
      let vs := coerceVal v
      if override then
        let a := h.alloc vs
        cloneLoop rest override (setKey ps k a.1) a.2
      else
        match lookupKey ps k with
        | some r => cloneLoop rest override ps (h.write r (h.mem r ++ vs))
        | none =>
            let a := h.alloc vs
            cloneLoop rest override (ps ++ [(k, a.1)]) a.2

/-- `SearchSet.clone` over the heap: deep-copy the current parameters,
run the kwargs loop on the copy, and build the new instance.  The source
instance `s` is untouched — the theorems below show the list objects it
references are, too. -/
def SSH.clone (s : SSH) (h : Heap) (override : Bool)
    (kwargs : List (String × CloneVal)) : SSH × Heap :=
  let d := deepcopyParams s.params h
  let c := cloneLoop kwargs override d.1 d.2
  (⟨s.resource_type, c.1⟩, c.2)

/-- `SearchSet.search(**kwargs)` = `clone(**kwargs)` (no override). -/
def SSH.search (s : SSH) (h : Heap) (kwargs : List (String × CloneVal)) : SSH × Heap :=
  s.clone h false kwargs

/-- `SearchSet.limit(limit)` = `clone(_count=limit, override=True)`. -/
def SSH.limit (s : SSH) (h : Heap) (limit : Int) : SSH × Heap :=
  s.clone h true [("_count", .scalar (.n limit))]

/-- `SearchSet.page(page)` = `clone(page=page, override=True)`. -/
def SSH.page (s : SSH) (h : Heap) (page : Int) : SSH × Heap :=
  s.clone h true [("page", .scalar (.n page))]

/-- `SearchSet.sort(*keys)` = `clone(_sort=','.join(keys), override=True)`. -/
def SSH.sort (s : SSH) (h : Heap) (keys : List String) : SSH × Heap :=
  s.clone h true [("_sort", .scalar (.s (String.intercalate "," keys)))]

/-- `SearchSet.elements(*attrs, exclude=False)`: dedup the attributes,
union in `id`/`resourceType` unless excluding, and override `_elements`
with the comma-joined (and `-`-prefixed when excluding) value.  Python
iterates a `set` in unspecified order; a canonical order is fixed here —
no claim depends on the order inside the `_elements` string. -/
def SSH.elements (s : SSH) (h : Heap) (attrs : List String) (exclude : Bool) :
    SSH × Heap :=
  let attrs' := (if exclude then attrs else attrs ++ ["id", "resourceType"]).eraseDups
  s.clone h true
    [("_elements",
      .scalar (.s ((if exclude then "-" else "") ++ String.intercalate "," attrs')))]

/-- `SearchSet.include(resource_type, attr, target_resource_type=None,
recursive=False)`: builds the `_include[:recursive]` key and the
`resource_type:attr[:target]` value, then a *non-override* clone. -/
def SSH.includeOp (s : SSH) (h : Heap) (resource_type attr : String)
    (target_resource_type : Option String) (recursive : Bool) : SSH × Heap :=
  let key := String.intercalate ":" (["_include"] ++ if recursive then ["recursive"] else [])
  let value := String.intercalate ":"
    ([resource_type, attr] ++ match target_resource_type with
                              | some tt => [tt]
                              | none => [])
  s.clone h false [(key, .scalar (.s value))]

/-- Modelled from the spec: `chunks` lives in `utils` (not under `src/`);
per its use in `has` it splits a sequence into consecutive chunks of
size 2 (its only call site passes an even-length list, checked first). -/
def chunks2 : List String → List (List String)
  | [] => []
  | [a] => [[a]]
  | a :: b :: rest => [a, b] :: chunks2 rest

/-- `SearchSet.has(*args, **kwargs)`: reject an odd count of positional
arguments with `TypeError`, otherwise build the chained
`_has:type:attr:..:key` parameter keys and perform one non-override
clone. -/
def SSH.has (s : SSH) (h : Heap) (args : List String)
    (kwargs : List (String × PVal)) : Except Err (SSH × Heap) :=
  if args.length % 2 ≠ 0 then .error .typeError
  else
    let key_part := String.intercalate ":"
      ((chunks2 args).map fun pair => "_has:" ++ String.intercalate ":" pair)
    .ok (s.clone h false
      (kwargs.map fun kv => (key_part ++ ":" ++ kv.1, .scalar kv.2)))

/-- The list of search values a `SearchSet` instance observes for a key:
the dereferenced entry, or the defaultdict default `[]`. -/
def SSH.view (s : SSH) (h : Heap) (k : String) : List PVal :=
  match lookupKey s.params k with
  | some r => h.mem r
  | none => []

theorem lookupKey_setKey_self (ps : List (String × Nat)) (k : String) (r : Nat) :
    lookupKey (setKey ps k r) k = some r := by
  induction ps with
  | nil => simp [setKey, lookupKey]
  | cons hd tl ih =>
      obtain ⟨k₀, r₀⟩ := hd
      by_cases h : k₀ = k <;> simp [setKey, lookupKey, h, ih]

theorem lookupKey_mem (ps : List (String × Nat)) (k : String) (r : Nat)
    (h : lookupKey ps k = some r) : (k, r) ∈ ps := by
  induction ps with
  | nil => simp [lookupKey] at h
  | cons hd tl ih =>
      obtain ⟨k₀, r₀⟩ := hd
      by_cases h₀ : k₀ = k
      · subst h₀
        simp [lookupKey] at h
        simp [h]
      · simp [lookupKey, h₀] at h
        exact List.mem_cons_of_mem _ (ih h)

theorem setKey_ref_mem (ps : List (String × Nat)) (k : String) (r : Nat) :
    ∀ p ∈ setKey ps k r, p ∈ ps ∨ p.2 = r := by
  induction ps with
  | nil =>
      intro p hp
      simp [setKey] at hp
      exact Or.inr (by rw [hp])
  | cons hd tl ih =>
      obtain ⟨k₀, r₀⟩ := hd
      intro p hp
      by_cases h : k₀ = k
      · simp [setKey, h] at hp
        rcases hp with hp | hp
        · exact Or.inr (by rw [hp])
        · exact Or.inl (List.mem_cons_of_mem _ hp)
      · simp [setKey, h] at hp
        rcases hp with hp | hp
        · exact Or.inl (by simp [hp])
        · rcases ih p hp with h' | h'
          · exact Or.inl (List.mem_cons_of_mem _ h')
          · exact Or.inr h'

theorem deepcopy_next (ps : List (String × Nat)) (h : Heap) :
    h.next ≤ ((deepcopyParams ps h).2).next := by
  induction ps generalizing h with
  | nil => simp [deepcopyParams]
  | cons hd tl ih =>
      obtain ⟨k, r⟩ := hd
      simp only [deepcopyParams]
      have h1 := ih (h.alloc (h.mem r)).2
      have h2 : (h.alloc (h.mem r)).2.next = h.next + 1 := rfl
      omega

theorem deepcopy_mem_low (ps : List (String × Nat)) (h : Heap) :
    ∀ r < h.next, ((deepcopyParams ps h).2).mem r = h.mem r := by
  induction ps generalizing h with
  | nil => intro r _; simp [deepcopyParams]
  | cons hd tl ih =>
      obtain ⟨k, r₀⟩ := hd
      intro r hr
      simp only [deepcopyParams]
      rw [ih _ r (lt_trans hr (Nat.lt_succ_self _))]
      simp [Heap.alloc, Nat.ne_of_lt hr]

theorem deepcopy_refs_ge (ps : List (String × Nat)) (h : Heap) :
    ∀ p ∈ (deepcopyParams ps h).1, h.next ≤ p.2 := by
  induction ps generalizing h with
  | nil => intro p hp; simp [deepcopyParams] at hp
  | cons hd tl ih =>
      obtain ⟨k, r₀⟩ := hd
      intro p hp
      simp only [deepcopyParams] at hp
      rcases List.mem_cons.mp hp with hp | hp
      · rw [hp]
        exact Nat.le_of_eq rfl
      · have h1 := ih (h.alloc (h.mem r₀)).2 p hp
        have h2 : (h.alloc (h.mem r₀)).2.next = h.next + 1 := rfl
        omega

theorem deepcopy_lookup (ps : List (String × Nat)) (h : Heap)
    (hwf : ∀ p ∈ ps, p.2 < h.next) (k : String) :
    (lookupKey ps k = none → lookupKey (deepcopyParams ps h).1 k = none) ∧
    (∀ r, lookupKey ps k = some r →
      ∃ r', lookupKey (deepcopyParams ps h).1 k = some r' ∧
        ((deepcopyParams ps h).2).mem r' = h.mem r) := by
  induction ps generalizing h with
  | nil => simp [deepcopyParams, lookupKey]
  | cons hd tl ih =>
      obtain ⟨k₀, r₀⟩ := hd
      by_cases h₀ : k₀ = k
      · subst h₀
        constructor
        · intro hn
          simp [lookupKey] at hn
        · intro r hr
          have hr' : r₀ = r := by simpa [lookupKey] using hr
          subst hr'
          refine ⟨h.next, ?_, ?_⟩
          · simp [deepcopyParams, lookupKey, Heap.alloc]
          · simp only [deepcopyParams]
            rw [deepcopy_mem_low _ _ h.next (Nat.lt_succ_self _)]
            simp [Heap.alloc]
      · have hwf' : ∀ p ∈ tl, p.2 < (h.alloc (h.mem r₀)).2.next := by
          intro p hp
          have := hwf p (List.mem_cons_of_mem _ hp)
          simp [Heap.alloc]
          omega
        have hr₀ : r₀ < h.next := hwf (k₀, r₀) (List.mem_cons_self _ _)
        constructor
        · intro hn
          simp only [lookupKey, if_neg h₀] at hn
          simp only [deepcopyParams, lookupKey, if_neg h₀]
          exact (ih _ hwf').1 hn
        · intro r hr
          simp only [lookupKey, if_neg h₀] at hr
          obtain ⟨r', hl, hm⟩ := (ih _ hwf').2 r hr
          refine ⟨r', ?_, ?_⟩
          · simp only [deepcopyParams, lookupKey, if_neg h₀]
            exact hl
          · simp only [deepcopyParams]
            rw [hm]
            have : r < h.next := hwf (k, r) (List.mem_cons_of_mem _ (lookupKey_mem _ _ _ hr))
            simp [Heap.alloc, Nat.ne_of_lt this]

theorem lookupKey_append_none (ps qs : List (String × Nat)) (k : String)
    (h : lookupKey ps k = none) : lookupKey (ps ++ qs) k = lookupKey qs k := by
  induction ps with
  | nil => simp
  | cons hd tl ih =>
      obtain ⟨k₀, r₀⟩ := hd
      by_cases h₀ : k₀ = k
      · simp [lookupKey, h₀] at h
      · simp only [lookupKey, if_neg h₀] at h
        simp only [List.cons_append, lookupKey, if_neg h₀]
        exact ih h

theorem cloneLoop_low (override : Bool) (kwargs : List (String × CloneVal)) :
    ∀ (ps : List (String × Nat)) (h : Heap) (n₀ : Nat),
      n₀ ≤ h.next → (∀ p ∈ ps, n₀ ≤ p.2) →
      (∀ r < n₀, ((cloneLoop kwargs override ps h).2).mem r = h.mem r) ∧
        n₀ ≤ ((cloneLoop kwargs override ps h).2).next := by
  induction kwargs with
  | nil =>
      intro ps h n₀ h₁ _
      exact ⟨fun r _ => rfl, h₁⟩
  | cons hd rest ih =>
      obtain ⟨k, v⟩ := hd
      intro ps h n₀ h₁ h₂
      cases override with
      | true =>
          simp only [cloneLoop, if_pos]
          have hnext : (h.alloc (coerceVal v)).2.next = h.next + 1 := rfl
          have hps' : ∀ p ∈ setKey ps k (h.alloc (coerceVal v)).1, n₀ ≤ p.2 := by
            intro p hp
            rcases setKey_ref_mem ps k _ p hp with h' | h'
            · exact h₂ p h'
            · rw [h']; exact h₁
          have := ih (setKey ps k (h.alloc (coerceVal v)).1) (h.alloc (coerceVal v)).2 n₀
            (by omega) hps'
          refine ⟨fun r hr => ?_, this.2⟩
          rw [this.1 r hr]
          have hne : r ≠ h.next := by omega
          simp [Heap.alloc, hne]
      | false =>
          rcases hL : lookupKey ps k with _ | r
          · simp only [cloneLoop, hL, Bool.false_eq_true]
            rw [if_neg not_false]
            have hnext : (h.alloc (coerceVal v)).2.next = h.next + 1 := rfl
            have hps' : ∀ p ∈ ps ++ [(k, (h.alloc (coerceVal v)).1)], n₀ ≤ p.2 := by
              intro p hp
              rcases List.mem_append.mp hp with h' | h'
              · exact h₂ p h'
              · simp at h'
                rw [h']
                exact h₁
            have := ih (ps ++ [(k, (h.alloc (coerceVal v)).1)]) (h.alloc (coerceVal v)).2 n₀
              (by omega) hps'
            refine ⟨fun r hr => ?_, this.2⟩
            rw [this.1 r hr]
            have hne : r ≠ h.next := by omega
            simp [Heap.alloc, hne]
          · simp only [cloneLoop, hL, Bool.false_eq_true]
            rw [if_neg not_false]
            have hrge : n₀ ≤ r := h₂ _ (lookupKey_mem _ _ _ hL)
            have hnext : (h.write r (h.mem r ++ coerceVal v)).next = h.next := rfl
            have := ih ps (h.write r (h.mem r ++ coerceVal v)) n₀ (by omega) h₂
            refine ⟨fun r' hr' => ?_, this.2⟩
            rw [this.1 r' hr']
            have hne : r' ≠ r := by omega
            simp [Heap.write, hne]

theorem clone_mem_low (s : SSH) (h : Heap) (override : Bool)
    (kwargs : List (String × CloneVal)) :
    ∀ r < h.next, ((s.clone h override kwargs).2).mem r = h.mem r := by
  intro r hr
  simp only [SSH.clone]
  have hd1 := deepcopy_mem_low s.params h r hr
  have hd2 := deepcopy_next s.params h
  have hd3 := deepcopy_refs_ge s.params h
  have hc := cloneLoop_low override kwargs (deepcopyParams s.params h).1
    (deepcopyParams s.params h).2 h.next hd2 hd3
  rw [hc.1 r hr, hd1]

theorem clone_view_preserved (s : SSH) (h : Heap)
    (hwf : ∀ p ∈ s.params, p.2 < h.next) (override : Bool)
    (kwargs : List (String × CloneVal)) (k : String) :
    s.view (s.clone h override kwargs).2 k = s.view h k := by
  unfold SSH.view
  rcases hL : lookupKey s.params k with _ | r
  · rfl
  · exact clone_mem_low s h override kwargs r (hwf _ (lookupKey_mem _ _ _ hL))

/-- C3: every SearchSet refinement (clone, search, limit, page, sort,
elements, include, has) returns a new instance and never mutates the
source instance's parameter mapping: in the heap after the refinement,
every key of the source still dereferences to exactly the value list it
held before. -/
theorem c3_refinements_never_mutate_source (s : SSH) (h : Heap)
    (hwf : ∀ p ∈ s.params, p.2 < h.next) :
    (∀ override kwargs k, s.view (s.clone h override kwargs).2 k = s.view h k) ∧
    (∀ kwargs k, s.view (s.search h kwargs).2 k = s.view h k) ∧
    (∀ n k, s.view (s.limit h n).2 k = s.view h k) ∧
    (∀ n k, s.view (s.page h n).2 k = s.view h k) ∧
    (∀ keys k, s.view (s.sort h keys).2 k = s.view h k) ∧
    (∀ attrs b k, s.view (s.elements h attrs b).2 k = s.view h k) ∧
    (∀ rt attr tt b k, s.view (s.includeOp h rt attr tt b).2 k = s.view h k) ∧
    (∀ args kwargs s' h', s.has h args kwargs = .ok (s', h') →
      ∀ k, s.view h' k = s.view h k) := by
  refine ⟨fun o kws k => clone_view_preserved s h hwf o kws k,
    fun kws k => clone_view_preserved s h hwf false kws k,
    fun n k => clone_view_preserved s h hwf true _ k,
    fun n k => clone_view_preserved s h hwf true _ k,
    fun keys k => clone_view_preserved s h hwf true _ k,
    fun attrs b k => clone_view_preserved s h hwf true _ k,
    fun rt attr tt b k => clone_view_preserved s h hwf false _ k,
    fun args kws s' h' hhas k => ?_⟩
  unfold SSH.has at hhas
  split at hhas
  · exact absurd hhas (by simp)
  · have h2 := Except.ok.inj hhas
    have h3 : (s', h').2 = h' := rfl
    rw [← h3, ← h2]
    exact clone_view_preserved s h hwf false _ k

/-- C3 witness: a concrete SearchSet over one heap cell keeps its view of
the `name` parameter across a `search` refinement on the same key. -/
theorem c3_witness :
    (∀ p ∈ SSH.params ⟨"Patient", [("name", 0)]⟩, p.2 < Heap.next ⟨fun r => if r = 0 then [PVal.s "john"] else [], 1⟩) ∧
    SSH.view ⟨"Patient", [("name", 0)]⟩
      ((SSH.search ⟨"Patient", [("name", 0)]⟩ ⟨fun r => if r = 0 then [PVal.s "john"] else [], 1⟩
        [("name", CloneVal.scalar (PVal.s "jane"))]).2) "name"
      = SSH.view ⟨"Patient", [("name", 0)]⟩ ⟨fun r => if r = 0 then [PVal.s "john"] else [], 1⟩ "name" := by
  refine ⟨by decide, ?_⟩
  exact (c3_refinements_never_mutate_source ⟨"Patient", [("name", 0)]⟩
    ⟨fun r => if r = 0 then [PVal.s "john"] else [], 1⟩ (by decide)).2.1
    [("name", CloneVal.scalar (PVal.s "jane"))] "name"

/-- C4: `clone(override=True, {k: v})` makes the new instance's value
list for `k` exactly the (scalar-coerced) incoming list, while
`clone(override=False, {k: v})` makes it the source's list for `k` with
the incoming values appended — prior entries preserved. -/
theorem c4_clone_override_semantics (s : SSH) (h : Heap) (k : String) (v : CloneVal)
    (hwf : ∀ p ∈ s.params, p.2 < h.next) :
    ((s.clone h true [(k, v)]).1).view ((s.clone h true [(k, v)]).2) k = coerceVal v ∧
    ((s.clone h false [(k, v)]).1).view ((s.clone h false [(k, v)]).2) k
      = s.view h k ++ coerceVal v := by
  constructor
  · simp only [SSH.clone, cloneLoop, if_pos]
    unfold SSH.view
    rw [lookupKey_setKey_self]
    simp [Heap.alloc]
  · rcases hL : lookupKey s.params k with _ | r
    · have hnone := (deepcopy_lookup s.params h hwf k).1 hL
      have hview : s.view h k = [] := by simp [SSH.view, hL]
      rw [hview]
      simp only [SSH.clone, cloneLoop, Bool.false_eq_true]
      rw [if_neg not_false, hnone]
      unfold SSH.view
      rw [lookupKey_append_none _ _ _ hnone]
      simp [lookupKey, Heap.alloc]
    · obtain ⟨r', hl', hm'⟩ := (deepcopy_lookup s.params h hwf k).2 r hL
      have hview : s.view h k = h.mem r := by simp [SSH.view, hL]
      rw [hview]
      simp only [SSH.clone, cloneLoop, Bool.false_eq_true]
      rw [if_neg not_false, hl']
      unfold SSH.view
      rw [hl']
      simp [Heap.write, hm']

/-- C4 witness: the override/append semantics of `clone` instantiated on
a concrete SearchSet holding `name ↦ [john]` in one heap cell. -/
theorem c4_witness :
    (∀ p ∈ SSH.params ⟨"Patient", [("name", 0)]⟩,
      p.2 < Heap.next ⟨fun r => if r = 0 then [PVal.s "john"] else [], 1⟩) ∧
    (((SSH.clone ⟨"Patient", [("name", 0)]⟩ ⟨fun r => if r = 0 then [PVal.s "john"] else [], 1⟩
        true [("name", CloneVal.scalar (PVal.s "jane"))]).1).view
      ((SSH.clone ⟨"Patient", [("name", 0)]⟩ ⟨fun r => if r = 0 then [PVal.s "john"] else [], 1⟩
        true [("name", CloneVal.scalar (PVal.s "jane"))]).2) "name"
      = coerceVal (CloneVal.scalar (PVal.s "jane")) ∧
    ((SSH.clone ⟨"Patient", [("name", 0)]⟩ ⟨fun r => if r = 0 then [PVal.s "john"] else [], 1⟩
        false [("name", CloneVal.scalar (PVal.s "jane"))]).1).view
      ((SSH.clone ⟨"Patient", [("name", 0)]⟩ ⟨fun r => if r = 0 then [PVal.s "john"] else [], 1⟩
        false [("name", CloneVal.scalar (PVal.s "jane"))]).2) "name"
      = SSH.view ⟨"Patient", [("name", 0)]⟩
          ⟨fun r => if r = 0 then [PVal.s "john"] else [], 1⟩ "name"
        ++ coerceVal (CloneVal.scalar (PVal.s "jane"))) :=
  ⟨by decide,
    c4_clone_override_semantics ⟨"Patient", [("name", 0)]⟩
      ⟨fun r => if r = 0 then [PVal.s "john"] else [], 1⟩ "name"
      (CloneVal.scalar (PVal.s "jane")) (by decide)⟩

theorem checkKey_base (cfg : ClientCfg) (rt : JSON) (k : String)
    (h : k ∈ ["resourceType", "id", "meta", "extension"]) :
    checkKey cfg rt k = .ok () := by
  unfold checkKey
  cases cfg.schema with
  | none => rfl
  | some sch =>
      show (if k ∈ getRootKeys sch rt then (Except.ok () : Except Err Unit)
            else .error .keyError) = .ok ()
      rw [if_pos (show k ∈ getRootKeys sch rt by
        unfold getRootKeys
        exact List.mem_append.mpr (Or.inr h))]

/-- C1: the claim — `resourceType` immutable after construction, any
store to it raising `KeyError` — is the stated intent (it is the error
message inside `Resource.__setitem__` verbatim), but the guard is
inverted: it raises only when the `resourceType` key is *absent*.  On a
freshly constructed resource the key is always present, so the store
silently succeeds and changes the stored value.  This theorem evaluates
the embedded code at the failing input. -/
theorem c1_resourceType_mutation :
    mkResource ⟨true, none⟩ (.str "Patient") []
      = .ok ⟨.str "Patient", [("resourceType", .str "Patient")]⟩ ∧
    Resource.setItem ⟨true, none⟩ ⟨.str "Patient", [("resourceType", .str "Patient")]⟩
        "resourceType" (.str "Practitioner")
      = .ok ⟨.str "Patient", [("resourceType", .str "Practitioner")]⟩ :=
  ⟨rfl, rfl⟩

/-- C9 counterexample: two unsaved resources of different types — neither
produces a reference string — nevertheless compare equal under
`AbstractResource.__eq__` (`None == None`), refuting "equal iff both
produce the same (defined) reference string". -/
theorem c9_counterexample :
    resourceEq ⟨.str "Patient", [("resourceType", .str "Patient")]⟩
        ⟨.str "Practitioner", [("resourceType", .str "Practitioner")]⟩ = true ∧
    ¬ ∃ s : String,
        Resource.referenceV ⟨.str "Patient", [("resourceType", .str "Patient")]⟩ = some s ∧
        Resource.referenceV ⟨.str "Practitioner", [("resourceType", .str "Practitioner")]⟩
          = some s := by
  constructor
  · rfl
  · rintro ⟨s, hs, -⟩
    have h0 : Resource.referenceV ⟨.str "Patient", [("resourceType", .str "Patient")]⟩
        = none := rfl
    rw [h0] at hs
    exact Option.noConfusion hs

/-- C9 (amended): two resources are equal exactly when their derived
reference values — possibly both undefined (`None`) — coincide; a
resource whose id is absent or falsy produces no reference string.  In
particular two unsaved resources are always equal. -/
theorem c9_equality_amended (r₁ r₂ : Resource) :
    (resourceEq r₁ r₂ = true ↔ r₁.referenceV = r₂.referenceV) ∧
    (r₁.rid.truthy = false → r₁.referenceV = none) := by
  constructor
  · simp [resourceEq]
  · intro h
    unfold Resource.referenceV
    rw [h]
    simp

/-- C9 witness: the amended equivalence instantiated on two concrete
unsaved resources. -/
theorem c9_witness :
    (Resource.rid ⟨JSON.str "Patient", []⟩).truthy = false ∧
    Resource.referenceV ⟨JSON.str "Patient", []⟩ = none ∧
    (resourceEq ⟨JSON.str "Patient", []⟩ ⟨JSON.str "Practitioner", []⟩ = true ↔
      Resource.referenceV ⟨JSON.str "Patient", []⟩
        = Resource.referenceV ⟨JSON.str "Practitioner", []⟩) :=
  ⟨rfl,
    (c9_equality_amended ⟨JSON.str "Patient", []⟩ ⟨JSON.str "Practitioner", []⟩).2 rfl,
    (c9_equality_amended ⟨JSON.str "Patient", []⟩ ⟨JSON.str "Practitioner", []⟩).1⟩

/-- C2 counterexample: a `Bundle` resource without an id.  The claim says
the request path of `save` is the bare resource type when no id is
present, but `_get_path` returns the empty string for a Bundle, and a
`save` reaches the server at path `""` (a transport that only answers
`("post", "")` succeeds). -/
theorem c2_path_counterexample :
    Resource.get_path ⟨JSON.str "Bundle", [("resourceType", JSON.str "Bundle")]⟩ = "" ∧
    ("" : String) ≠ "Bundle" ∧
    (Resource.save ⟨true, none⟩ (fun _ _ => none)
      ⟨JSON.str "Bundle", [("resourceType", JSON.str "Bundle")]⟩
      (fun m p => if m = "post" ∧ p = "" then .ok (.obj []) else .error .connection)).isOk
      = true :=
  ⟨rfl, by decide, rfl⟩

/-- C2 (amended): `save` issues exactly one request, with verb `post`
when the id is absent (falsy) and `put` when present, at path
`"{resourceType}/{id}"` when the id is present, the bare resource type
when absent — except for a `Bundle` without id, whose path is the empty
string; on a successful (dict) response, `meta` and `id` are overwritten
from the response body and, when caching is enabled, the resource is
registered in the cache under the server-returned id. -/
theorem c2_save_amended (cfg : ClientCfg) (cache : Cache) (r : Resource)
    (t : String → String → Except Err JSON) (fs : List (String × JSON))
    (hresp : t (if r.rid.truthy then "put" else "post") r.get_path = .ok (.obj fs)) :
    (r.rid.truthy = true → r.get_path = r.resource_type.fmt ++ "/" ++ r.rid.fmt) ∧
    (r.rid.truthy = false → r.resource_type ≠ .str "Bundle" →
      r.get_path = r.resource_type.fmt) ∧
    (r.rid.truthy = false → r.resource_type = .str "Bundle" → r.get_path = "") ∧
    (∀ t₂ : String → String → Except Err JSON,
      t₂ (if r.rid.truthy then "put" else "post") r.get_path
        = t (if r.rid.truthy then "put" else "post") r.get_path →
      r.save cfg cache t₂ = r.save cfg cache t) ∧
    (∃ r' : Resource,
      r.save cfg cache t = .ok (r', addToCache cfg cache r') ∧
      lookupField r'.fields "meta" = some (jgetD fs "meta" (.obj [])) ∧
      lookupField r'.fields "id" = some (jgetD fs "id" .null) ∧
      r'.rid = jgetD fs "id" .null ∧
      (cfg.withoutCache = false →
        getFromCache cfg (addToCache cfg cache r') r'.resource_type r'.rid = some r')) := by
  refine ⟨fun h => ?_, fun h hb => ?_, fun h hb => ?_, fun t₂ ht => ?_, ?_⟩
  · unfold Resource.get_path
    rw [if_pos h]
  · unfold Resource.get_path
    rw [if_neg (by rw [h]; exact Bool.false_ne_true), if_neg hb]
  · unfold Resource.get_path
    rw [if_neg (by rw [h]; exact Bool.false_ne_true), if_pos hb]
  · unfold Resource.save
    rw [ht]
  · have hmeta : r.setItem cfg "meta" (jgetD fs "meta" (.obj []))
        = .ok ⟨r.resource_type, setField r.fields "meta" (jgetD fs "meta" (.obj []))⟩ := by
      unfold Resource.setItem
      rw [if_neg (by simp)]
      rw [checkKey_base cfg r.resource_type "meta" (by simp)]
    have hid :
        Resource.setItem cfg
          ⟨r.resource_type, setField r.fields "meta" (jgetD fs "meta" (.obj []))⟩
          "id" (jgetD fs "id" .null)
        = .ok ⟨r.resource_type,
            setField (setField r.fields "meta" (jgetD fs "meta" (.obj []))) "id"
              (jgetD fs "id" .null)⟩ := by
      unfold Resource.setItem
      rw [if_neg (by simp)]
      rw [checkKey_base cfg r.resource_type "id" (by simp)]
    refine ⟨⟨r.resource_type,
      setField (setField r.fields "meta" (jgetD fs "meta" (.obj []))) "id"
        (jgetD fs "id" .null)⟩, ?_, ?_, ?_, ?_, ?_⟩
    · unfold Resource.save
      rw [hresp]
      show (match r.setItem cfg "meta" (jgetD fs "meta" (JSON.obj [])) with
            | Except.error e => Except.error e
            | Except.ok r₁ =>
              match r₁.setItem cfg "id" (jgetD fs "id" JSON.null) with
              | Except.error e => Except.error e
              | Except.ok r₂ => Except.ok (r₂, addToCache cfg cache r₂)) = _
      rw [hmeta]
      show (match Resource.setItem cfg
              ⟨r.resource_type, setField r.fields "meta" (jgetD fs "meta" (JSON.obj []))⟩
              "id" (jgetD fs "id" JSON.null) with
            | Except.error e => Except.error e
            | Except.ok r₂ => Except.ok (r₂, addToCache cfg cache r₂)) = _
      rw [hid]
    · rw [lookupField_setField_ne _ _ _ _ (by decide), lookupField_setField_self]
    · rw [lookupField_setField_self]
    · unfold Resource.rid Resource.getF jgetD
      rw [lookupField_setField_self]
      rfl
    · intro hwc
      unfold getFromCache addToCache
      rw [hwc]
      simp

/-- C2 witness: a concrete `save` of an id-less Patient against a
transport that only answers a `post` at path `Patient` succeeds. -/
theorem c2_witness :
    (fun m p => if m = "post" ∧ p = "Patient"
        then Except.ok (JSON.obj [("id", JSON.str "p1")]) else Except.error Err.connection)
      (if (Resource.rid ⟨JSON.str "Patient", [("resourceType", JSON.str "Patient")]⟩).truthy
        then "put" else "post")
      (Resource.get_path ⟨JSON.str "Patient", [("resourceType", JSON.str "Patient")]⟩)
      = Except.ok (JSON.obj [("id", JSON.str "p1")]) ∧
    (Resource.save ⟨false, none⟩ (fun _ _ => none)
      ⟨JSON.str "Patient", [("resourceType", JSON.str "Patient")]⟩
      (fun m p => if m = "post" ∧ p = "Patient"
        then Except.ok (JSON.obj [("id", JSON.str "p1")]) else Except.error Err.connection)).isOk
      = true := by
  refine ⟨rfl, ?_⟩
  obtain ⟨r', hs, -, -, -, -⟩ :=
    (c2_save_amended ⟨false, none⟩ (fun _ _ => none)
      ⟨JSON.str "Patient", [("resourceType", JSON.str "Patient")]⟩
      (fun m p => if m = "post" ∧ p = "Patient"
        then Except.ok (JSON.obj [("id", JSON.str "p1")]) else Except.error Err.connection)
      [("id", JSON.str "p1")] rfl).2.2.2.2
  rw [hs]
  rfl

/-- C8: `delete` evicts the resource from the cache before the network
call — after any `delete`, successful or not, the resource is absent from
the cache — and when the eviction does not itself raise (caching
disabled, or the resource present in the cache), a transport failure is
propagated unchanged. -/
theorem c8_delete_evicts_before_call (cfg : ClientCfg) (cache : Cache) (r : Resource)
    (t : String → Except Err JSON) :
    getFromCache cfg ((r.delete cfg cache t).2) r.resource_type r.rid = none ∧
    (∀ e : Err,
      cfg.withoutCache = true ∨ (cache r.resource_type r.rid).isSome = true →
      t r.get_path = .error e →
      (r.delete cfg cache t).1 = .error e) := by
  constructor
  · by_cases hwc : cfg.withoutCache = true
    · simp [getFromCache, hwc]
    · rcases hc : cache r.resource_type r.rid with _ | r₀
      · have hR : removeFromCache cfg cache r = .error .keyError := by
          unfold removeFromCache
          rw [if_neg hwc, hc]
        simp [Resource.delete, hR, getFromCache, hwc, hc]
      · have hR : removeFromCache cfg cache r
            = .ok (fun rt id =>
                if rt = r.resource_type ∧ id = r.rid then none else cache rt id) := by
          unfold removeFromCache
          rw [if_neg hwc, hc]
        unfold Resource.delete
        rw [hR]
        rcases ht : t r.get_path with e | d <;> simp [getFromCache, hwc]
  · intro e hrem ht
    rcases hrem with hwc | hsome
    · have hR : removeFromCache cfg cache r = .ok cache := by
        unfold removeFromCache
        rw [if_pos hwc]
      unfold Resource.delete
      rw [hR, ht]
    · by_cases hwc : cfg.withoutCache = true
      · have hR : removeFromCache cfg cache r = .ok cache := by
          unfold removeFromCache
          rw [if_pos hwc]
        unfold Resource.delete
        rw [hR, ht]
      · rcases hc : cache r.resource_type r.rid with _ | r₀
        · rw [hc] at hsome
          exact absurd hsome (by simp)
        · have hR : removeFromCache cfg cache r
              = .ok (fun rt id =>
                  if rt = r.resource_type ∧ id = r.rid then none else cache rt id) := by
            unfold removeFromCache
            rw [if_neg hwc, hc]
          unfold Resource.delete
          rw [hR, ht]

/-- C8 witness: deleting a cached Patient through a failing transport —
the failure is propagated and the resource is gone from the cache. -/
theorem c8_witness :
    (Option.isSome
      ((fun rt id => if rt = JSON.str "Patient" ∧ id = JSON.str "p1"
          then some (⟨JSON.str "Patient",
            [("resourceType", JSON.str "Patient"), ("id", JSON.str "p1")]⟩ : Resource)
          else none)
        (Resource.resource_type ⟨JSON.str "Patient",
          [("resourceType", JSON.str "Patient"), ("id", JSON.str "p1")]⟩)
        (Resource.rid ⟨JSON.str "Patient",
          [("resourceType", JSON.str "Patient"), ("id", JSON.str "p1")]⟩)) = true) ∧
    ((Resource.delete ⟨false, none⟩
      (fun rt id => if rt = JSON.str "Patient" ∧ id = JSON.str "p1"
          then some (⟨JSON.str "Patient",
            [("resourceType", JSON.str "Patient"), ("id", JSON.str "p1")]⟩ : Resource)
          else none)
      ⟨JSON.str "Patient", [("resourceType", JSON.str "Patient"), ("id", JSON.str "p1")]⟩
      (fun _ => Except.error Err.connection)).1 = Except.error Err.connection) ∧
    getFromCache ⟨false, none⟩
      ((Resource.delete ⟨false, none⟩
        (fun rt id => if rt = JSON.str "Patient" ∧ id = JSON.str "p1"
            then some (⟨JSON.str "Patient",
              [("resourceType", JSON.str "Patient"), ("id", JSON.str "p1")]⟩ : Resource)
            else none)
        ⟨JSON.str "Patient", [("resourceType", JSON.str "Patient"), ("id", JSON.str "p1")]⟩
        (fun _ => Except.error Err.connection)).2)
      (Resource.resource_type ⟨JSON.str "Patient",
        [("resourceType", JSON.str "Patient"), ("id", JSON.str "p1")]⟩)
      (Resource.rid ⟨JSON.str "Patient",
        [("resourceType", JSON.str "Patient"), ("id", JSON.str "p1")]⟩) = none :=
  ⟨rfl,
    (c8_delete_evicts_before_call ⟨false, none⟩
      (fun rt id => if rt = JSON.str "Patient" ∧ id = JSON.str "p1"
          then some (⟨JSON.str "Patient",
            [("resourceType", JSON.str "Patient"), ("id", JSON.str "p1")]⟩ : Resource)
          else none)
      ⟨JSON.str "Patient", [("resourceType", JSON.str "Patient"), ("id", JSON.str "p1")]⟩
      (fun _ => Except.error Err.connection)).2 Err.connection (Or.inr rfl) rfl,
    (c8_delete_evicts_before_call ⟨false, none⟩
      (fun rt id => if rt = JSON.str "Patient" ∧ id = JSON.str "p1"
          then some (⟨JSON.str "Patient",
            [("resourceType", JSON.str "Patient"), ("id", JSON.str "p1")]⟩ : Resource)
          else none)
      ⟨JSON.str "Patient", [("resourceType", JSON.str "Patient"), ("id", JSON.str "p1")]⟩
      (fun _ => Except.error Err.connection)).1⟩

/-- C5: when the response document's `resourceType` differs from
`Bundle`, `fetch` raises `InvalidResponse` before any materialization:
the cache at exit is exactly the caller's cache. -/
theorem c5_fetch_non_bundle (cfg : ClientCfg) (s : SearchSet) (t : Transport)
    (skip : Bool) (cache : Cache) (fs : List (String × JSON)) (v : JSON)
    (hresp : t s.resource_type s.params = .ok (.obj fs))
    (hrt : lookupField fs "resourceType" = some v)
    (hne : v ≠ .str "Bundle") :
    s.fetch cfg t skip cache = (.error .invalidResponse, cache) := by
  unfold SearchSet.fetch
  rw [hresp]
  show (if jgetD fs "resourceType" JSON.null ≠ JSON.str "Bundle"
        then ((Except.error Err.invalidResponse : Except Err (List Resource)), cache)
        else match extractEntries fs with
             | .error e => (.error e, cache)
             | .ok datas => fetchLoop cfg skip s.resource_type datas cache []) = _
  have hv : jgetD fs "resourceType" JSON.null = v := by
    unfold jgetD
    rw [hrt]
    rfl
  rw [hv, if_pos hne]

/-- C5 witness: an `OperationOutcome` document in place of a Bundle makes
a concrete `fetch` fail with `InvalidResponse`, cache untouched. -/
theorem c5_witness :
    lookupField [("resourceType", JSON.str "OperationOutcome")] "resourceType"
      = some (JSON.str "OperationOutcome") ∧
    (JSON.str "OperationOutcome" ≠ JSON.str "Bundle") ∧
    SearchSet.fetch ⟨false, none⟩ ⟨"Patient", []⟩
      (fun _ _ => Except.ok (JSON.obj [("resourceType", JSON.str "OperationOutcome")]))
      false (fun _ _ => none)
      = (Except.error Err.invalidResponse, fun _ _ => none) :=
  ⟨rfl, by decide,
    c5_fetch_non_bundle ⟨false, none⟩ ⟨"Patient", []⟩
      (fun _ _ => Except.ok (JSON.obj [("resourceType", JSON.str "OperationOutcome")]))
      false (fun _ _ => none) [("resourceType", JSON.str "OperationOutcome")]
      (JSON.str "OperationOutcome") rfl rfl (by decide)⟩

theorem fetchLoop_filter (cfg : ClientCfg) (skip : Bool) (declared : String) :
    ∀ (datas : List JSON) (cache : Cache) (acc rs : List Resource),
      (fetchLoop cfg skip declared datas cache acc).1 = .ok rs →
      (∀ r ∈ acc, r.resource_type = .str declared) →
      ∀ r ∈ rs, r.resource_type = .str declared := by
  intro datas
  induction datas with
  | nil =>
      intro cache acc rs h hacc
      simp only [fetchLoop] at h
      rw [← Except.ok.inj h]
      exact hacc
  | cons d rest ih =>
      intro cache acc rs h hacc
      rcases hp : performResource cfg cache d skip with e | ⟨r, cache₁⟩
      · simp only [fetchLoop, hp] at h
        exact Except.noConfusion h
      · simp only [fetchLoop, hp] at h
        refine ih cache₁ _ rs h ?_
        by_cases hr : r.resource_type = .str declared
        · rw [if_pos hr] at h ⊢
          intro r' hr'
          rcases List.mem_append.mp hr' with h' | h'
          · exact hacc r' h'
          · rw [List.mem_singleton.mp h']
            exact hr
        · rw [if_neg hr] at h ⊢
          exact hacc

/-- When the transport itself fails, `fetch` propagates the failure with
the cache untouched. -/
theorem fetch_transport_error (cfg : ClientCfg) (s : SearchSet) (t : Transport)
    (skip : Bool) (cache : Cache) (e : Err)
    (ht : t s.resource_type s.params = .error e) :
    s.fetch cfg t skip cache = (.error e, cache) := by
  unfold SearchSet.fetch
  rw [ht]

/-- When the response object's `resourceType` is anything but `Bundle`
(including absent), `fetch` raises `InvalidResponse`, cache untouched. -/
theorem fetch_eq_invalid (cfg : ClientCfg) (s : SearchSet) (t : Transport)
    (skip : Bool) (cache : Cache) (fs : List (String × JSON))
    (hresp : t s.resource_type s.params = .ok (.obj fs))
    (hb : jgetD fs "resourceType" JSON.null ≠ JSON.str "Bundle") :
    s.fetch cfg t skip cache = (.error .invalidResponse, cache) := by
  unfold SearchSet.fetch
  rw [hresp]
  show (if jgetD fs "resourceType" JSON.null ≠ JSON.str "Bundle"
        then ((Except.error Err.invalidResponse : Except Err (List Resource)), cache)
        else match extractEntries fs with
             | .error e => (.error e, cache)
             | .ok datas => fetchLoop cfg skip s.resource_type datas cache []) = _
  rw [if_pos hb]

/-- When entry extraction fails on a Bundle response, `fetch` propagates
that failure with the cache untouched. -/
theorem fetch_entries_error (cfg : ClientCfg) (s : SearchSet) (t : Transport)
    (skip : Bool) (cache : Cache) (fs : List (String × JSON)) (e : Err)
    (hresp : t s.resource_type s.params = .ok (.obj fs))
    (hb : jgetD fs "resourceType" JSON.null = JSON.str "Bundle")
    (he : extractEntries fs = .error e) :
    s.fetch cfg t skip cache = (.error e, cache) := by
  unfold SearchSet.fetch
  rw [hresp]
  show (if jgetD fs "resourceType" JSON.null ≠ JSON.str "Bundle"
        then ((Except.error Err.invalidResponse : Except Err (List Resource)), cache)
        else match extractEntries fs with
             | .error e => (.error e, cache)
             | .ok datas => fetchLoop cfg skip s.resource_type datas cache []) = _
  rw [if_neg (fun hc => hc hb), he]

/-- On a well-formed Bundle response, `fetch` is exactly the
materialization loop over the extracted entries. -/
theorem fetch_ok_entries (cfg : ClientCfg) (s : SearchSet) (t : Transport)
    (skip : Bool) (cache : Cache) (fs : List (String × JSON)) (datas : List JSON)
    (hresp : t s.resource_type s.params = .ok (.obj fs))
    (hb : jgetD fs "resourceType" JSON.null = JSON.str "Bundle")
    (he : extractEntries fs = .ok datas) :
    s.fetch cfg t skip cache = fetchLoop cfg skip s.resource_type datas cache [] := by
  unfold SearchSet.fetch
  rw [hresp]
  show (if jgetD fs "resourceType" JSON.null ≠ JSON.str "Bundle"
        then ((Except.error Err.invalidResponse : Except Err (List Resource)), cache)
        else match extractEntries fs with
             | .error e => (.error e, cache)
             | .ok datas => fetchLoop cfg skip s.resource_type datas cache []) = _
  rw [if_neg (fun hc => hc hb), he]

/-- C6: every resource in the list returned by `fetch` has the
SearchSet's declared resource type, whatever the Bundle's entries
contain. -/
theorem c6_fetch_filters_declared_type (cfg : ClientCfg) (s : SearchSet) (t : Transport)
    (skip : Bool) (cache : Cache) (rs : List Resource)
    (h : (s.fetch cfg t skip cache).1 = .ok rs) :
    ∀ r ∈ rs, r.resource_type = .str s.resource_type := by
  rcases ht : t s.resource_type s.params with e | bundle
  · rw [fetch_transport_error cfg s t skip cache e ht] at h
    exact absurd h (by simp)
  · cases bundle with
    | obj fs =>
        by_cases hb : jgetD fs "resourceType" JSON.null ≠ JSON.str "Bundle"
        · rw [fetch_eq_invalid cfg s t skip cache fs ht hb] at h
          exact absurd h (by simp)
        · rcases he : extractEntries fs with e | datas
          · rw [fetch_entries_error cfg s t skip cache fs e ht (not_not.mp hb) he] at h
            exact absurd h (by simp)
          · rw [fetch_ok_entries cfg s t skip cache fs datas ht (not_not.mp hb) he] at h
            exact fetchLoop_filter cfg skip s.resource_type datas cache [] rs h
              (by intro r hr; simp at hr)
    | null =>
        rw [show s.fetch cfg t skip cache = (.error .attributeError, cache) from by
          unfold SearchSet.fetch; rw [ht]] at h
        exact absurd h (by simp)
    | str a =>
        rw [show s.fetch cfg t skip cache = (.error .attributeError, cache) from by
          unfold SearchSet.fetch; rw [ht]] at h
        exact absurd h (by simp)
    | num a =>
        rw [show s.fetch cfg t skip cache = (.error .attributeError, cache) from by
          unfold SearchSet.fetch; rw [ht]] at h
        exact absurd h (by simp)
    | arr a =>
        rw [show s.fetch cfg t skip cache = (.error .attributeError, cache) from by
          unfold SearchSet.fetch; rw [ht]] at h
        exact absurd h (by simp)

/-- C6 witness: a Bundle mixing a Patient and a Practitioner entry
fetched through a Patient SearchSet returns only the Patient, and the
returned resource has the declared type. -/
theorem c6_witness :
    (SearchSet.fetch ⟨false, none⟩ ⟨"Patient", []⟩
      (fun _ _ => Except.ok (JSON.obj
        [("resourceType", JSON.str "Bundle"),
         ("entry", JSON.arr
           [JSON.obj [("resource",
              JSON.obj [("resourceType", JSON.str "Patient"), ("id", JSON.str "p1")])],
            JSON.obj [("resource",
              JSON.obj [("resourceType", JSON.str "Practitioner"), ("id", JSON.str "d1")])]])]))
      false (fun _ _ => none)).1
      = Except.ok [⟨JSON.str "Patient",
          [("resourceType", JSON.str "Patient"), ("id", JSON.str "p1")]⟩] ∧
    Resource.resource_type
      ⟨JSON.str "Patient", [("resourceType", JSON.str "Patient"), ("id", JSON.str "p1")]⟩
      = JSON.str "Patient" :=
  ⟨rfl,
    c6_fetch_filters_declared_type ⟨false, none⟩ ⟨"Patient", []⟩
      (fun _ _ => Except.ok (JSON.obj
        [("resourceType", JSON.str "Bundle"),
         ("entry", JSON.arr
           [JSON.obj [("resource",
              JSON.obj [("resourceType", JSON.str "Patient"), ("id", JSON.str "p1")])],
            JSON.obj [("resource",
              JSON.obj [("resourceType", JSON.str "Practitioner"), ("id", JSON.str "d1")])]])]))
      false (fun _ _ => none)
      [⟨JSON.str "Patient", [("resourceType", JSON.str "Patient"), ("id", JSON.str "p1")]⟩]
      rfl
      ⟨JSON.str "Patient", [("resourceType", JSON.str "Patient"), ("id", JSON.str "p1")]⟩
      (List.mem_singleton.mpr rfl)⟩

theorem addToCache_mono (cfg : ClientCfg) (cache : Cache) (r : Resource) (k₁ k₂ : JSON)
    (h : (cache k₁ k₂).isSome = true) :
    ((addToCache cfg cache r) k₁ k₂).isSome = true := by
  unfold addToCache
  by_cases hwc : cfg.withoutCache = true
  · rw [if_pos hwc]
    exact h
  · rw [if_neg hwc]
    by_cases hk : k₁ = r.resource_type ∧ k₂ = r.rid
    · rw [if_pos hk]
      rfl
    · rw [if_neg hk]
      exact h

theorem addToCache_self (cfg : ClientCfg) (cache : Cache) (r : Resource)
    (hwc : cfg.withoutCache = false) :
    ((addToCache cfg cache r) r.resource_type r.rid).isSome = true := by
  unfold addToCache
  rw [if_neg (by rw [hwc]; exact Bool.false_ne_true), if_pos ⟨rfl, rfl⟩]
  rfl

theorem fetchLoop_cache_mono (cfg : ClientCfg) (skip : Bool) (declared : String) :
    ∀ (datas : List JSON) (cache : Cache) (acc : List Resource) (k₁ k₂ : JSON),
      (cache k₁ k₂).isSome = true →
      (((fetchLoop cfg skip declared datas cache acc).2) k₁ k₂).isSome = true := by
  intro datas
  induction datas with
  | nil =>
      intro cache acc k₁ k₂ h
      exact h
  | cons d rest ih =>
      intro cache acc k₁ k₂ h
      rcases hp : performResource cfg cache d skip with e | ⟨r, cache₁⟩
      · simp only [fetchLoop, hp]
        exact h
      · simp only [fetchLoop, hp]
        refine ih cache₁ _ k₁ k₂ ?_
        have hc₁ : cache₁ = if skip then cache else addToCache cfg cache r := by
          unfold performResource at hp
          cases d with
          | obj dfs =>
              rcases hm : mkResource cfg (jgetD dfs "resourceType" JSON.null) dfs with e | r'
              · simp only [hm] at hp
                exact Except.noConfusion hp
              · simp only [hm] at hp
                have hpair := Except.ok.inj hp
                have h1 : r' = r := congrArg Prod.fst hpair
                have h2 : (if skip = true then cache else addToCache cfg cache r') = cache₁ :=
                  congrArg Prod.snd hpair
                rw [← h2, h1]
          | null => exact Except.noConfusion hp
          | str a => exact Except.noConfusion hp
          | num a => exact Except.noConfusion hp
          | arr a => exact Except.noConfusion hp
        rw [hc₁]
        by_cases hskip : skip = true
        · rw [if_pos hskip]
          exact h
        · rw [if_neg hskip]
          exact addToCache_mono cfg cache r k₁ k₂ h

theorem mkResource_ok (cfg : ClientCfg) (rt : JSON) (kwargs : List (String × JSON))
    (r : Resource) (h : mkResource cfg rt kwargs = .ok r) :
    r.resource_type = rt ∧ r.fields = setField kwargs "resourceType" rt := by
  unfold mkResource at h
  split at h
  · exact Except.noConfusion h
  · split at h
    · exact Except.noConfusion h
    · have := Except.ok.inj h
      rw [← this]
      exact ⟨rfl, rfl⟩

theorem performResource_obj_ok (cfg : ClientCfg) (cache : Cache)
    (dfs : List (String × JSON)) (r : Resource) (cache₁ : Cache)
    (hp : performResource cfg cache (.obj dfs) false = .ok (r, cache₁)) :
    r.resource_type = jgetD dfs "resourceType" JSON.null ∧
    r.rid = jgetD dfs "id" JSON.null ∧
    cache₁ = addToCache cfg cache r := by
  unfold performResource at hp
  rcases hm : mkResource cfg (jgetD dfs "resourceType" JSON.null) dfs with e | r'
  · simp only [hm] at hp
    exact Except.noConfusion hp
  · simp only [hm] at hp
    have hpair := Except.ok.inj hp
    have h1 : r' = r := congrArg Prod.fst hpair
    have h2 : (if false = true then cache else addToCache cfg cache r') = cache₁ :=
      congrArg Prod.snd hpair
    rw [if_neg (by exact Bool.false_ne_true)] at h2
    obtain ⟨hrt, hfl⟩ := mkResource_ok cfg _ dfs r' hm
    subst h1
    refine ⟨hrt, ?_, h2.symm⟩
    unfold Resource.rid Resource.getF jgetD
    rw [hfl, lookupField_setField_ne _ _ _ _ (by decide)]

theorem fetchLoop_caches (cfg : ClientCfg) (declared : String)
    (hwc : cfg.withoutCache = false) :
    ∀ (datas : List JSON) (cache : Cache) (acc rs : List Resource),
      (fetchLoop cfg false declared datas cache acc).1 = .ok rs →
      ∀ d ∈ datas, ∀ dfs, d = .obj dfs →
        (((fetchLoop cfg false declared datas cache acc).2)
          (jgetD dfs "resourceType" JSON.null) (jgetD dfs "id" JSON.null)).isSome = true := by
  intro datas
  induction datas with
  | nil =>
      intro cache acc rs h d hd
      exact absurd hd (List.not_mem_nil d)
  | cons d₀ rest ih =>
      intro cache acc rs h d hd dfs hdfs
      rcases hp : performResource cfg cache d₀ false with e | ⟨r, cache₁⟩
      · simp only [fetchLoop, hp] at h
        exact Except.noConfusion h
      · simp only [fetchLoop, hp] at h ⊢
        rcases List.mem_cons.mp hd with hd₀ | hdrest
        · subst hd₀
          subst hdfs
          obtain ⟨hrt, hid, hc₁⟩ := performResource_obj_ok cfg cache dfs r cache₁ hp
          refine fetchLoop_cache_mono cfg false declared rest cache₁ _ _ _ ?_
          rw [hc₁, ← hrt, ← hid]
          exact addToCache_self cfg cache r hwc
        · exact ih cache₁ _ rs h d hdrest dfs hdfs

/-- C10: with `skip_caching` false and caching enabled, every resource
materialized from the Bundle's entries is registered in the cache under
its own `(resourceType, id)` — including entries whose type differs from
the SearchSet's declared type: the declared-type filter applies only to
the returned list. -/
theorem c10_fetch_caches_all_entries (cfg : ClientCfg) (s : SearchSet) (t : Transport)
    (cache : Cache) (fs : List (String × JSON)) (datas : List JSON) (rs : List Resource)
    (hwc : cfg.withoutCache = false)
    (hresp : t s.resource_type s.params = .ok (.obj fs))
    (hb : jgetD fs "resourceType" JSON.null = JSON.str "Bundle")
    (he : extractEntries fs = .ok datas)
    (hok : (s.fetch cfg t false cache).1 = .ok rs) :
    ∀ d ∈ datas, ∀ dfs, d = .obj dfs →
      (((s.fetch cfg t false cache).2) (jgetD dfs "resourceType" JSON.null)
        (jgetD dfs "id" JSON.null)).isSome = true := by
  have hf := fetch_ok_entries cfg s t false cache fs datas hresp hb he
  rw [hf] at hok ⊢
  intro d hd dfs hdfs
  exact fetchLoop_caches cfg s.resource_type hwc datas cache [] rs hok d hd dfs hdfs

/-- C10 witness: in the mixed Patient/Practitioner Bundle, the
Practitioner entry — filtered out of the returned list — is nevertheless
present in the cache after `fetch`. -/
theorem c10_witness :
    extractEntries
      [("resourceType", JSON.str "Bundle"),
       ("entry", JSON.arr
         [JSON.obj [("resource",
            JSON.obj [("resourceType", JSON.str "Patient"), ("id", JSON.str "p1")])],
          JSON.obj [("resource",
            JSON.obj [("resourceType", JSON.str "Practitioner"), ("id", JSON.str "d1")])]])]
      = Except.ok
          [JSON.obj [("resourceType", JSON.str "Patient"), ("id", JSON.str "p1")],
           JSON.obj [("resourceType", JSON.str "Practitioner"), ("id", JSON.str "d1")]] ∧
    (((SearchSet.fetch ⟨false, none⟩ ⟨"Patient", []⟩
      (fun _ _ => Except.ok (JSON.obj
        [("resourceType", JSON.str "Bundle"),
         ("entry", JSON.arr
           [JSON.obj [("resource",
              JSON.obj [("resourceType", JSON.str "Patient"), ("id", JSON.str "p1")])],
            JSON.obj [("resource",
              JSON.obj [("resourceType", JSON.str "Practitioner"), ("id", JSON.str "d1")])]])]))
      false (fun _ _ => none)).2)
      (JSON.str "Practitioner") (JSON.str "d1")).isSome = true :=
  ⟨rfl,
    c10_fetch_caches_all_entries ⟨false, none⟩ ⟨"Patient", []⟩
      (fun _ _ => Except.ok (JSON.obj
        [("resourceType", JSON.str "Bundle"),
         ("entry", JSON.arr
           [JSON.obj [("resource",
              JSON.obj [("resourceType", JSON.str "Patient"), ("id", JSON.str "p1")])],
            JSON.obj [("resource",
              JSON.obj [("resourceType", JSON.str "Practitioner"), ("id", JSON.str "d1")])]])]))
      (fun _ _ => none)
      [("resourceType", JSON.str "Bundle"),
       ("entry", JSON.arr
         [JSON.obj [("resource",
            JSON.obj [("resourceType", JSON.str "Patient"), ("id", JSON.str "p1")])],
          JSON.obj [("resource",
            JSON.obj [("resourceType", JSON.str "Practitioner"), ("id", JSON.str "d1")])]])]
      [JSON.obj [("resourceType", JSON.str "Patient"), ("id", JSON.str "p1")],
       JSON.obj [("resourceType", JSON.str "Practitioner"), ("id", JSON.str "d1")]]
      [⟨JSON.str "Patient", [("resourceType", JSON.str "Patient"), ("id", JSON.str "p1")]⟩]
      rfl rfl rfl rfl rfl
      (JSON.obj [("resourceType", JSON.str "Practitioner"), ("id", JSON.str "d1")])
      (by decide)
      [("resourceType", JSON.str "Practitioner"), ("id", JSON.str "d1")]
      rfl⟩

theorem performResource_fst_irrel (cfg : ClientCfg) (d : JSON) (skip : Bool)
    (cache₁ cache₂ : Cache) :
    (performResource cfg cache₁ d skip).map Prod.fst
      = (performResource cfg cache₂ d skip).map Prod.fst := by
  unfold performResource
  cases d with
  | obj dfs =>
      rcases hm : mkResource cfg (jgetD dfs "resourceType" JSON.null) dfs with e | r
      · simp only [hm]
      · simp only [hm]
        rfl
  | null => rfl
  | str a => rfl
  | num a => rfl
  | arr a => rfl

theorem fetchLoop_fst_irrel (cfg : ClientCfg) (skip : Bool) (declared : String) :
    ∀ (datas : List JSON) (cache₁ cache₂ : Cache) (acc : List Resource),
      (fetchLoop cfg skip declared datas cache₁ acc).1
        = (fetchLoop cfg skip declared datas cache₂ acc).1 := by
  intro datas
  induction datas with
  | nil =>
      intro c₁ c₂ acc
      rfl
  | cons d rest ih =>
      intro c₁ c₂ acc
      have hpr := performResource_fst_irrel cfg d skip c₁ c₂
      rcases hp₁ : performResource cfg c₁ d skip with e₁ | ⟨r₁, c₁'⟩ <;>
        rcases hp₂ : performResource cfg c₂ d skip with e₂ | ⟨r₂, c₂'⟩
      · rw [hp₁, hp₂] at hpr
        have he : e₁ = e₂ := by simpa [Except.map] using hpr
        simp [fetchLoop, hp₁, hp₂, he]
      · rw [hp₁, hp₂] at hpr
        exact absurd hpr (by simp [Except.map])
      · rw [hp₁, hp₂] at hpr
        exact absurd hpr (by simp [Except.map])
      · rw [hp₁, hp₂] at hpr
        have hr : r₁ = r₂ := by simpa [Except.map] using hpr
        simp only [fetchLoop, hp₁, hp₂]
        rw [hr]
        exact ih c₁' c₂' _

theorem fetch_fst_irrel (cfg : ClientCfg) (s : SearchSet) (t : Transport) (skip : Bool)
    (cache₁ cache₂ : Cache) :
    (s.fetch cfg t skip cache₁).1 = (s.fetch cfg t skip cache₂).1 := by
  rcases ht : t s.resource_type s.params with e | bundle
  · rw [fetch_transport_error cfg s t skip cache₁ e ht,
      fetch_transport_error cfg s t skip cache₂ e ht]
  · cases bundle with
    | obj fs =>
        by_cases hb : jgetD fs "resourceType" JSON.null ≠ JSON.str "Bundle"
        · rw [fetch_eq_invalid cfg s t skip cache₁ fs ht hb,
            fetch_eq_invalid cfg s t skip cache₂ fs ht hb]
        · rcases he : extractEntries fs with e | datas
          · rw [fetch_entries_error cfg s t skip cache₁ fs e ht (not_not.mp hb) he,
              fetch_entries_error cfg s t skip cache₂ fs e ht (not_not.mp hb) he]
          · rw [fetch_ok_entries cfg s t skip cache₁ fs datas ht (not_not.mp hb) he,
              fetch_ok_entries cfg s t skip cache₂ fs datas ht (not_not.mp hb) he]
            exact fetchLoop_fst_irrel cfg skip s.resource_type datas cache₁ cache₂ []
    | null =>
        rw [show s.fetch cfg t skip cache₁ = (.error .attributeError, cache₁) from by
            unfold SearchSet.fetch; rw [ht],
          show s.fetch cfg t skip cache₂ = (.error .attributeError, cache₂) from by
            unfold SearchSet.fetch; rw [ht]]
    | str a =>
        rw [show s.fetch cfg t skip cache₁ = (.error .attributeError, cache₁) from by
            unfold SearchSet.fetch; rw [ht],
          show s.fetch cfg t skip cache₂ = (.error .attributeError, cache₂) from by
            unfold SearchSet.fetch; rw [ht]]
    | num a =>
        rw [show s.fetch cfg t skip cache₁ = (.error .attributeError, cache₁) from by
            unfold SearchSet.fetch; rw [ht],
          show s.fetch cfg t skip cache₂ = (.error .attributeError, cache₂) from by
            unfold SearchSet.fetch; rw [ht]]
    | arr a =>
        rw [show s.fetch cfg t skip cache₁ = (.error .attributeError, cache₁) from by
            unfold SearchSet.fetch; rw [ht],
          show s.fetch cfg t skip cache₂ = (.error .attributeError, cache₂) from by
            unfold SearchSet.fetch; rw [ht]]

theorem fetchAllAux_spec (cfg : ClientCfg) (s : SearchSet) (t : Transport) (skip : Bool)
    (N : Nat) (L : Nat → List Resource)
    (hpages : ∀ (i : Nat) (c : Cache), 1 ≤ i → i < N →
      ((s.pageV (i : Int)).fetch cfg t skip c).1 = .ok (L i))
    (hempty : ∀ c : Cache, ((s.pageV (N : Int)).fetch cfg t skip c).1 = .ok [])
    (hLne : ∀ i : Nat, 1 ≤ i → i < N → L i ≠ []) :
    ∀ (fuel p : Nat) (cache : Cache) (acc : List Resource),
      1 ≤ p → p ≤ N → N - p < fuel →
      (fetchAllAux cfg t skip s fuel (p : Int) cache acc).map Prod.fst
        = some (.ok (acc ++ ((List.range' p (N - p)).map L).flatten)) := by
  intro fuel
  induction fuel with
  | zero =>
      intro p cache acc h1 h2 h3
      omega
  | succ fuel ih =>
      intro p cache acc h1 h2 h3
      by_cases hpN : p = N
      · subst hpN
        have hf := hempty cache
        have hpair : (s.pageV (p : Int)).fetch cfg t skip cache
            = (.ok ([] : List Resource), ((s.pageV (p : Int)).fetch cfg t skip cache).2) := by
          rw [← hf]
        simp only [fetchAllAux]
        rw [hpair]
        simp [Nat.sub_self]
      · have hplt : p < N := lt_of_le_of_ne h2 hpN
        have hf := hpages p cache h1 hplt
        have hpair : (s.pageV (p : Int)).fetch cfg t skip cache
            = (.ok (L p), ((s.pageV (p : Int)).fetch cfg t skip cache).2) := by
          rw [← hf]
        have hne := hLne p h1 hplt
        simp only [fetchAllAux]
        rw [hpair]
        simp only [if_neg hne]
        have hcast : ((p : Int) + 1) = ((p + 1 : Nat) : Int) := by push_cast; ring
        rw [hcast, ih (p + 1) _ (acc ++ L p) (by omega) (by omega) (by omega)]
        have hrange : N - p = (N - (p + 1)) + 1 := by omega
        rw [hrange, List.range'_succ]
        simp [List.append_assoc]

/-- C7: when page `N` is the first page whose fetch returns zero
resources (pages `1..N-1` succeed non-empty), `fetch_all` terminates
there — any fuel of at least `N` iterations yields the same answer — and
its result is the concatenation of `page(1).fetch(), …, page(N-1).fetch()`. -/
theorem c7_fetch_all_concat (cfg : ClientCfg) (s : SearchSet) (t : Transport) (skip : Bool)
    (cache : Cache) (N fuel : Nat) (L : Nat → List Resource)
    (hN : 1 ≤ N) (hfuel : N ≤ fuel)
    (hpages : ∀ i : Nat, 1 ≤ i → i < N →
      ((s.pageV (i : Int)).fetch cfg t skip cache).1 = .ok (L i) ∧ L i ≠ [])
    (hempty : ((s.pageV (N : Int)).fetch cfg t skip cache).1 = .ok []) :
    (s.fetch_all cfg t skip cache fuel).map Prod.fst
      = some (.ok (((List.range' 1 (N - 1)).map L).flatten)) := by
  have hpagesAll : ∀ (i : Nat) (c : Cache), 1 ≤ i → i < N →
      ((s.pageV (i : Int)).fetch cfg t skip c).1 = .ok (L i) := by
    intro i c h1 h2
    rw [fetch_fst_irrel cfg (s.pageV (i : Int)) t skip c cache]
    exact (hpages i h1 h2).1
  have hemptyAll : ∀ c : Cache, ((s.pageV (N : Int)).fetch cfg t skip c).1 = .ok [] := by
    intro c
    rw [fetch_fst_irrel cfg (s.pageV (N : Int)) t skip c cache]
    exact hempty
  have hLne : ∀ i : Nat, 1 ≤ i → i < N → L i ≠ [] := fun i h1 h2 => (hpages i h1 h2).2
  have hmain := fetchAllAux_spec cfg s t skip N L hpagesAll hemptyAll hLne fuel 1 cache []
    le_rfl hN (by omega)
  unfold SearchSet.fetch_all
  simpa using hmain

/-- C7 witness: a server whose page 1 holds one Patient and whose page 2
is empty — `fetch_all` with fuel 2 returns exactly that Patient. -/
theorem c7_witness :
    (SearchSet.fetch_all ⟨false, none⟩ ⟨"Patient", []⟩
      (fun _ ps => if lookupParams ps "page" = some [PVal.n 1]
        then Except.ok (JSON.obj
          [("resourceType", JSON.str "Bundle"),
           ("entry", JSON.arr [JSON.obj [("resource",
              JSON.obj [("resourceType", JSON.str "Patient"), ("id", JSON.str "p1")])]])])
        else Except.ok (JSON.obj [("resourceType", JSON.str "Bundle")]))
      false (fun _ _ => none) 2).map Prod.fst
      = some (Except.ok [⟨JSON.str "Patient",
          [("resourceType", JSON.str "Patient"), ("id", JSON.str "p1")]⟩]) := by
  have hmain := c7_fetch_all_concat ⟨false, none⟩ ⟨"Patient", []⟩
    (fun _ ps => if lookupParams ps "page" = some [PVal.n 1]
      then Except.ok (JSON.obj
        [("resourceType", JSON.str "Bundle"),
         ("entry", JSON.arr [JSON.obj [("resource",
            JSON.obj [("resourceType", JSON.str "Patient"), ("id", JSON.str "p1")])]])])
      else Except.ok (JSON.obj [("resourceType", JSON.str "Bundle")]))
    false (fun _ _ => none) 2 2
    (fun i => if i = 1
      then [⟨JSON.str "Patient", [("resourceType", JSON.str "Patient"), ("id", JSON.str "p1")]⟩]
      else [])
    (by decide) (by decide)
    (by
      intro i h1 h2
      have hi : i = 1 := by omega
      subst hi
      exact ⟨rfl, by decide⟩)
    rfl
  exact hmain
